import Mathlib

/-!
# Verification of the p2p-network key-value ring

A shallow embedding of the p2p-network repository (a Chord-style
peer-to-peer key-value store) together with proofs about its behaviour.

Embedded modules:

* `src/protocol.py` — the message codec (`serialize_message`,
  `deserialize_message`, `_validate_payload_content`).
* `src/overlay.py` — `OverlayManager` (`is_responsible`, `notify`,
  `is_better_predecessor`, `update_successor`, `update_predecessor`).
* `src/storage.py` — the in-memory ring simulator (`Node`, `add_node`).
* `main.py` — the request dispatcher (`procesar_mensaje` branches for
  `JOIN`/`PUT`/`GET`, `transferir_llaves`) and the maintenance loop
  (`tareas_mantenimiento`).
* The `LocalStorage` component and the `handle_successor_failure` /
  predecessor-heartbeat machinery are referenced by `main.py` and the
  tests but their definitions are not present in the source tree; they
  are modelled from the specification where noted.

Message payloads in this protocol carry only scalar values
(spec §4.3: "data: per-type mapping of string keys to scalar values"),
so JSON values are modelled at two levels: scalars (`PyVal`) and
envelope-field values that are either a scalar or a flat string-keyed
mapping of scalars (`JVal`).  Python floats are modelled as rationals.
-/

/-- A scalar JSON / Python value as carried in message payloads:
`None`/`null`, a boolean, a number (floats modelled as rationals), or a
string. -/
inductive PyVal where
  | none : PyVal
  | bool : Bool → PyVal
  | num : ℚ → PyVal
  | str : String → PyVal
  deriving DecidableEq, Repr

/-- A JSON value appearing as a top-level envelope field: either a
scalar or a flat object mapping string keys to scalars. -/
inductive JVal where
  | scalar : PyVal → JVal
  | obj : List (String × PyVal) → JVal
  deriving DecidableEq, Repr

/-- Python truthiness of a scalar value (`if val:`): `None`, `False`,
`0` and `""` are falsy, everything else truthy. -/
def PyVal.truthy : PyVal → Bool
  | .none => false
  | .bool b => b
  | .num q => q ≠ 0
  | .str s => s ≠ ""

/-- Python truthiness of an optional scalar: a missing value (`None`)
is falsy. -/
def pyTruthy : Option PyVal → Bool
  | Option.none => false
  | Option.some v => v.truthy

/-- The value of a non-empty all-digit character list read in base 10. -/
def decDigits (cs : List Char) : Option ℕ :=
  if cs ≠ [] ∧ cs.all Char.isDigit then
    Option.some (cs.foldl (fun a c => 10 * a + (c.toNat - 48)) 0)
  else
    Option.none

/-- Python `int(s)` on a string: an optionally minus-signed decimal
literal; `Option.none` models the `ValueError` raised on anything else.
(Python also strips whitespace and allows underscore separators; no
such sender id is ever produced by this protocol.) -/
def pyInt (s : String) : Option Int :=
  match s.data with
  | '-' :: cs => (decDigits cs).map (fun n => -(n : Int))
  | cs => (decDigits cs).map (fun n => (n : Int))

/-- First binding of a key in a string-keyed association list
(a parsed JSON object has unique keys, so first = only). -/
def lookupKey {α : Type} (fields : List (String × α)) (k : String) : Option α :=
  (fields.find? (fun p => p.1 = k)).map (fun p => p.2)

/-- `k in d` for a parsed JSON object. -/
def hasKey {α : Type} (fields : List (String × α)) (k : String) : Bool :=
  (lookupKey fields k).isSome

/-- `k in data` where `data` is an envelope's `data` field.  For a
mapping this is key membership.  Python raises `TypeError` on
non-iterable scalars (that case lies outside the frames this model
quantifies over; the dispatcher only ever sees validated mappings). -/
def JVal.hasField : JVal → String → Bool
  | .obj fields, k => hasKey fields k
  | .scalar _, _ => false

namespace Protocol

/-- `MessageType` — the six message types permitted on the wire
(`src/protocol.py`). -/
inductive MessageType where
  | JOIN | UPDATE | PUT | GET | RESULT | HEARTBEAT
  deriving DecidableEq, Repr

/-- The wire string of a message type (the `Enum` value). -/
def MessageType.toWire : MessageType → String
  | .JOIN => "JOIN"
  | .UPDATE => "UPDATE"
  | .PUT => "PUT"
  | .GET => "GET"
  | .RESULT => "RESULT"
  | .HEARTBEAT => "HEARTBEAT"

/-- `MessageType(value)` — recover an enum member from a wire value;
`Option.none` models the `ValueError` Python raises when the value is
not an enum member (including non-string values). -/
def MessageType.ofWire : JVal → Option MessageType
  | .scalar (.str "JOIN") => some .JOIN
  | .scalar (.str "UPDATE") => some .UPDATE
  | .scalar (.str "PUT") => some .PUT
  | .scalar (.str "GET") => some .GET
  | .scalar (.str "RESULT") => some .RESULT
  | .scalar (.str "HEARTBEAT") => some .HEARTBEAT
  | _ => none

/-- The `Message` dataclass of `src/protocol.py`: type, sender id,
payload mapping and timestamp.  `deserialize_message` never checks the
shapes of `data` and `timestamp`, so they are arbitrary `JVal`s here. -/
structure Message where
  type : MessageType
  sender_id : String
  data : JVal
  timestamp : JVal
  deriving DecidableEq, Repr

/-- Python `str()` applied to a parsed JSON value, as used by
`deserialize_message` on the `sender_id` field.  Only the string case
is exercised by serialized envelopes; the renderings of the other
scalars follow Python's `str()`. -/
def pyStr : JVal → String
  | .scalar (.str s) => s
  | .scalar .none => "None"
  | .scalar (.bool true) => "True"
  | .scalar (.bool false) => "False"
  | .scalar (.num q) => toString q
  | .obj _ => "{...}"

/-- `serialize_message` (`src/protocol.py`): the JSON text it produces,
modelled by the top-level JSON object that text denotes. -/
def serialize_message (m : Message) : List (String × JVal) :=
  [("type", .scalar (.str m.type.toWire)),
   ("sender_id", .scalar (.str m.sender_id)),
   ("data", m.data),
   ("timestamp", m.timestamp)]

/-- The validation failures of `deserialize_message`, one per `raise`
site (all are `ValueError` in Python, distinguished by message). -/
inductive DeserErr where
  | malformedFrame   -- "Formato JSON inválido"
  | missingField     -- "Faltan campos obligatorios: ..."
  | unknownType      -- "Tipo de mensaje desconocido: ..."
  | badPayload       -- "<TYPE> requiere ..."
  deriving DecidableEq, Repr

/-- `_validate_payload_content` (`src/protocol.py`): `JOIN` requires
`ip` and `port`, `PUT` requires `key` and `value`, `GET` requires
`key`; the remaining types are not checked. -/
def validate_payload_content (t : MessageType) (data : JVal) : Bool :=
  match t with
  | .JOIN => data.hasField "ip" && data.hasField "port"
  | .PUT => data.hasField "key" && data.hasField "value"
  | .GET => data.hasField "key"
  | _ => true

/-- A received frame: `Option.none` models a syntactically invalid JSON
text, `some payload` the parsed top-level object. -/
def Frame : Type := Option (List (String × JVal))

/-- `deserialize_message` (`src/protocol.py`): parse, check the four
envelope fields, resolve the type, validate the per-type payload and
build the `Message` (coercing `sender_id` through `str`). -/
def deserialize_message (frame : Frame) : Except DeserErr Message :=
  match frame with
  | Option.none => .error .malformedFrame
  | Option.some payload =>
    if hasKey payload "type" && hasKey payload "sender_id" &&
       hasKey payload "data" && hasKey payload "timestamp" then
      match MessageType.ofWire ((lookupKey payload "type").getD (.scalar .none)) with
      | Option.none => .error .unknownType
      | Option.some t =>
        let data := (lookupKey payload "data").getD (.scalar .none)
        if validate_payload_content t data then
          .ok { type := t,
                sender_id := pyStr ((lookupKey payload "sender_id").getD (.scalar .none)),
                data := data,
                timestamp := (lookupKey payload "timestamp").getD (.scalar .none) }
        else .error .badPayload
    else .error .missingField

end Protocol

/-- Modelled from the spec: the `LocalStorage` class is imported by
`main.py` and the tests (`tests/test_smoke.py` exercises
`put`/`get`/`delete`/`get_all`), but its definition is absent from the
source tree.  Per spec §4.2 it is a mapping with `put` (overwrite or
insert), `get` (value or absent), `delete` (remove if present,
idempotent) and `snapshot`/`get_all` (independent copy of the whole
mapping).  A Python dict is modelled as an insertion-ordered
association list with unique keys. -/
abbrev LocalStorage (κ γ : Type) : Type := List (κ × γ)

namespace LocalStorage

/-- `put(k, v)`: overwrite the existing binding in place, or append. -/
def put {κ γ : Type} [DecidableEq κ] : LocalStorage κ γ → κ → γ → LocalStorage κ γ
  | [], k, v => [(k, v)]
  | (k', v') :: rest, k, v =>
    if k' = k then (k, v) :: rest else (k', v') :: put rest k v

/-- `get(k)`: the bound value, or absent. -/
def get {κ γ : Type} [DecidableEq κ] (s : LocalStorage κ γ) (k : κ) : Option γ :=
  (s.find? (fun p => p.1 = k)).map (fun p => p.2)

/-- `delete(k)`: remove the binding for `k` if present. -/
def delete {κ γ : Type} [DecidableEq κ] (s : LocalStorage κ γ) (k : κ) : LocalStorage κ γ :=
  s.filter (fun p => p.1 ≠ k)

/-- `get_all()` / `snapshot()`: a copy of the entire mapping (in this
pure model a value, hence independent of later mutations by
construction). -/
def get_all {κ γ : Type} (s : LocalStorage κ γ) : LocalStorage κ γ := s

end LocalStorage

namespace Overlay

/-- A peer reference as kept in `OverlayManager.successor` /
`.predecessor`: `{"id": ..., "ip": ..., "port": ...}`.  The `ip` and
`port` values are stored exactly as they arrived in a message payload,
so they are scalars. -/
structure PeerRef where
  pid : Int
  ip : PyVal
  port : PyVal
  deriving DecidableEq, Repr

/-- The mutable state of `OverlayManager` (`src/overlay.py`): own
address, node id, successor (never `None`) and optional predecessor.
`last_heartbeat` is modelled from the spec (§3
`last_predecessor_heartbeat`): `tareas_mantenimiento` in `main.py`
reads `overlay.last_heartbeat`, but no code in `src/overlay.py`
defines it. -/
structure OverlayState where
  ip : String
  port : Int
  node_id : Int
  successor : PeerRef
  predecessor : Option PeerRef
  last_heartbeat : ℚ
  deriving DecidableEq, Repr

/-- `OverlayManager.__init__`: the node id is the hash of `"ip:port"`
(`h` abstracts SHA-1, which no claim depends on numerically), the
successor is the node itself and there is no predecessor. -/
def OverlayState.init (h : String → Int) (ip : String) (port : Int) : OverlayState :=
  let nid := h s!"{ip}:{port}"
  { ip := ip, port := port, node_id := nid,
    successor := ⟨nid, .str ip, .num (port : ℚ)⟩,
    predecessor := Option.none, last_heartbeat := 0 }

/-- The peer reference of the node itself. -/
def OverlayState.selfRef (st : OverlayState) : PeerRef :=
  ⟨st.node_id, .str st.ip, .num (st.port : ℚ)⟩

/-- `OverlayManager.is_responsible` (`src/overlay.py`): with no
predecessor, responsible for everything; otherwise membership of the
target in `(p_id, n_id]`, with the wrap-around branch when
`p_id >= n_id`. -/
def is_responsible (st : OverlayState) (target_id : Int) : Bool :=
  match st.predecessor with
  | Option.none => true
  | Option.some p =>
    if p.pid < st.node_id then
      decide (p.pid < target_id ∧ target_id ≤ st.node_id)
    else
      decide (target_id > p.pid ∨ target_id ≤ st.node_id)

/-- `OverlayManager.update_successor`. -/
def update_successor (st : OverlayState) (new_id : Int) (new_ip new_port : PyVal) :
    OverlayState :=
  { st with successor := ⟨new_id, new_ip, new_port⟩ }

/-- `OverlayManager.update_predecessor`. -/
def update_predecessor (st : OverlayState) (new_id : Int) (new_ip new_port : PyVal) :
    OverlayState :=
  { st with predecessor := Option.some ⟨new_id, new_ip, new_port⟩ }

/-- `OverlayManager.is_better_predecessor` (`src/overlay.py`): whether
`p_id` lies strictly between the current predecessor and the node,
with a wrap-around branch.  `notify` only calls it when a predecessor
exists; with none, Python would raise `TypeError` on the subscript
(modelled as `false`, the branch being unreachable from `notify`). -/
def is_better_predecessor (st : OverlayState) (p_id : Int) : Bool :=
  match st.predecessor with
  | Option.some cur =>
    if cur.pid < st.node_id then
      decide (cur.pid < p_id ∧ p_id < st.node_id)
    else
      decide (p_id > cur.pid ∨ p_id < st.node_id)
  | Option.none => false

/-- `OverlayManager.notify` (`src/overlay.py`): accept the sender as
new predecessor iff there is no current predecessor or the sender is a
better one; returns whether it was accepted. -/
def notify (st : OverlayState) (p_id : Int) (ip port : PyVal) : OverlayState × Bool :=
  if st.predecessor.isNone || is_better_predecessor st p_id then
    (update_predecessor st p_id ip port, true)
  else
    (st, false)

/-- Modelled from the spec: `handle_successor_failure` is called by
`tareas_mantenimiento` in `main.py` but is not defined anywhere in the
source tree.  Per spec §4.5: if successor ≠ self, reset the successor
to self. -/
def handle_successor_failure (ov : OverlayState) : OverlayState :=
  if ov.successor.pid ≠ ov.node_id then { ov with successor := ov.selfRef } else ov

end Overlay

namespace Dispatcher

open Protocol Overlay

/-- An outbound call to `networking.enviar_mensaje(ip, port, payload)`
issued by a handler; the serialized payload is recorded as the
`Message` it denotes. -/
structure Sent where
  ip : PyVal
  port : PyVal
  msg : Message
  deriving DecidableEq, Repr

/-- The per-process state touched by `procesar_mensaje` in `main.py`:
the overlay manager and the local store.  The store is keyed by the
scalar taken from `msg.data["key"]` and holds the scalar from
`msg.data["value"]`, exactly as the Python dict does. -/
structure NodeState where
  overlay : OverlayState
  storage : LocalStorage PyVal PyVal
  deriving DecidableEq, Repr

/-- Python `==` between a payload scalar and the node's own `port`
(an int): numeric equality, with `True == 1` / `False == 0` as in
Python; other scalars never equal an int. -/
def PyVal.eqInt : PyVal → Int → Bool
  | .num q, n => decide (q = (n : ℚ))
  | .bool b, n => decide ((if b then (1 : Int) else 0) = n)
  | _, _ => false

/-- Python `==` between a payload scalar and the node's own `ip`
(a string). -/
def PyVal.eqStr : PyVal → String → Bool
  | .str s, t => decide (s = t)
  | _, _ => false

/-- `transferir_llaves` (`main.py`): iterate `storage.get_all()`; for
each key compute its hash and test
`overlay.is_responsible(k_hash, nuevo_nodo_id)`.  That call passes two
positional arguments to `OverlayManager.is_responsible(self,
target_id)`, which accepts a single one, so Python raises `TypeError`
on the first iteration; the loop completes (sending nothing) exactly
when the store is empty. -/
def transferir_llaves (st : NodeState) (_nuevo_nodo_id : Int)
    (_nuevo_ip _nuevo_port : PyVal) : Except Unit (List Sent) :=
  match st.storage with
  | [] => .ok []
  | _ :: _ => .error ()

/-- The `JOIN` branch of `procesar_mensaje` (`main.py`): parse the
sender id, read `ip`/`port` from the payload, update the successor
(and, in a singleton ring, also the predecessor), run the key handoff,
then reply with `UPDATE(role=predecessor)`.  Any exception — including
the `TypeError` from `transferir_llaves` — is caught by the handler's
`except`, so the steps before it still take effect while nothing after
it runs.  `now` is the wall-clock time stamped onto constructed
messages. -/
def procesarJoin (st : NodeState) (sender_id : String)
    (data : List (String × PyVal)) (now : ℚ) : NodeState × List Sent :=
  match pyInt sender_id with
  | Option.none => (st, [])
  | Option.some new_id =>
    match lookupKey data "ip", lookupKey data "port" with
    | Option.some new_ip, Option.some new_port =>
      let ov := st.overlay
      let ov' :=
        if ov.successor.pid = ov.node_id then
          update_predecessor (update_successor ov new_id new_ip new_port)
            new_id new_ip new_port
        else
          update_successor ov new_id new_ip new_port
      let st' := { st with overlay := ov' }
      match transferir_llaves st' new_id new_ip new_port with
      | .error _ => (st', [])
      | .ok sends =>
        let resp : Message :=
          ⟨.UPDATE, toString ov'.node_id,
           .obj [("role", .str "predecessor"), ("ip", .str ov'.ip),
                 ("port", .num (ov'.port : ℚ))],
           .scalar (.num now)⟩
        (st', sends ++ [⟨new_ip, new_port, resp⟩])
    | _, _ => (st, [])

/-- The `PUT` branch of `procesar_mensaje` (`main.py`): read `key` and
`value`, store unconditionally, and when the message is not flagged as
a replica and the successor is a different node, send one replica
`PUT` to the successor. -/
def procesarPut (st : NodeState) (data : List (String × PyVal)) (now : ℚ) :
    NodeState × List Sent :=
  match lookupKey data "key", lookupKey data "value" with
  | Option.some key, Option.some val =>
    let is_replica := pyTruthy (lookupKey data "is_replica")
    let st' := { st with storage := st.storage.put key val }
    if is_replica = false ∧ st.overlay.successor.pid ≠ st.overlay.node_id then
      let rep : Message :=
        ⟨.PUT, toString st.overlay.node_id,
         .obj [("key", key), ("value", val), ("is_replica", .bool true)],
         .scalar (.num now)⟩
      (st', [⟨st.overlay.successor.ip, st.overlay.successor.port, rep⟩])
    else
      (st', [])
  | _, _ => (st, [])

/-- The `GET` branch of `procesar_mensaje` (`main.py`): if the stored
value is truthy, send a `RESULT` straight to the requester; otherwise
forward the envelope to the successor unless this node is itself the
requester.  A `KeyError` on the requester fields is caught by the
handler's `except`, sending nothing. -/
def procesarGet (st : NodeState) (msg : Message) (now : ℚ) : List Sent :=
  match msg.data with
  | .obj data =>
    match lookupKey data "key" with
    | Option.some key =>
      let val := st.storage.get key
      if pyTruthy val then
        match lookupKey data "requester_ip", lookupKey data "requester_port", val with
        | Option.some rip, Option.some rport, Option.some v =>
          let resp : Message :=
            ⟨.RESULT, toString st.overlay.node_id,
             .obj [("key", key), ("value", v)], .scalar (.num now)⟩
          [⟨rip, rport, resp⟩]
        | _, _, _ => []
      else
        match lookupKey data "requester_ip", lookupKey data "requester_port" with
        | Option.some rip, Option.some rport =>
          if !(PyVal.eqInt rport st.overlay.port) || !(PyVal.eqStr rip st.overlay.ip) then
            [⟨st.overlay.successor.ip, st.overlay.successor.port, msg⟩]
          else
            []
        | _, _ => []
    | Option.none => []
  | .scalar _ => []

/-- One iteration of the `while True` body of `tareas_mantenimiento`
(`main.py`), after the `time.sleep(5)`: heartbeat the successor when it
is a distinct node, calling `handle_successor_failure` when the send
reports failure, then clear a predecessor silent for more than 15
seconds.  `send_ok` is the ok/failed result of
`networking.enviar_mensaje` — modelled from the spec (§4.4 transport
client, exercised by `tests/test_networking.py`): the `networking.py`
variant in the tree raises on connection failure instead of returning
a status and is not the one those tests pass against.  `now` is the
current wall-clock time. -/
def tareas_mantenimiento_tick (ov : OverlayState) (send_ok : Bool) (now : ℚ) :
    OverlayState × List Sent :=
  let step :=
    if ov.successor.pid ≠ ov.node_id then
      let hb : Message :=
        ⟨.HEARTBEAT, toString ov.node_id,
         .obj [("ip", .str ov.ip), ("port", .num (ov.port : ℚ))],
         .scalar (.num now)⟩
      let sent : List Sent := [⟨ov.successor.ip, ov.successor.port, hb⟩]
      if send_ok then (ov, sent) else (handle_successor_failure ov, sent)
    else
      (ov, ([] : List Sent))
  let ov1 := step.1
  if ov1.predecessor.isSome ∧ now - ov1.last_heartbeat > 15 then
    ({ ov1 with predecessor := Option.none }, step.2)
  else
    (ov1, step.2)

end Dispatcher

namespace RingSim

/-- The pointer structure of the `Node` objects of `src/storage.py`.
Nodes are identified by their `node_id` (the property under
verification assumes pairwise distinct ids); the `successor` and
`predecessor` fields of all nodes are modelled as two global maps, and
`ring` is the Python list maintained by `add_node`. -/
structure RingState where
  ring : List ℕ
  succ : ℕ → ℕ
  pred : ℕ → ℕ

/-- `add_node` (`src/storage.py`): a first node forms a trivial ring
with itself; otherwise the insertion index is found by scanning while
`ring[index].node_id < node.node_id`, the node is inserted there, its
successor and predecessor are read at `(index ± 1) % len(ring)` of the
updated list, and the four pointer assignments are applied in source
order.  Python's `(index - 1) % n` is written `(index + n - 1) % n`. -/
def add_node (st : RingState) (nid : ℕ) : RingState :=
  if st.ring.isEmpty then
    { ring := [nid],
      succ := Function.update st.succ nid nid,
      pred := Function.update st.pred nid nid }
  else
    let index := (st.ring.takeWhile (fun x => x < nid)).length
    let ring' := st.ring.insertIdx index nid
    let n := ring'.length
    let succId := ring'.getD ((index + 1) % n) 0
    let predId := ring'.getD ((index + n - 1) % n) 0
    { ring := ring',
      succ := Function.update (Function.update st.succ nid succId) predId nid,
      pred := Function.update (Function.update st.pred nid predId) succId nid }

/-- An initially empty ring; `Node.__init__` starts every node as its
own successor and predecessor. -/
def emptyRing : RingState := ⟨[], id, id⟩

/-- Insert a sequence of nodes one by one, as `build_ring` in
`tests/test_storage.py` does. -/
def buildRing (ids : List ℕ) : RingState := ids.foldl add_node emptyRing

/-- The property claimed of every state reached by insertions: the
ring list is sorted by increasing id, and following a successor
pointer and then the predecessor pointer (or conversely) returns to
the starting node. -/
def ringConsistent (st : RingState) : Prop :=
  st.ring.Sorted (· < ·) ∧
  ∀ x ∈ st.ring, st.pred (st.succ x) = x ∧ st.succ (st.pred x) = x

/-- The inductive invariant: the ring list is sorted, each adjacent
pair is linked by the pointer maps, and the pointers wrap around from
the last element to the first. -/
def ringInv (st : RingState) : Prop :=
  st.ring.Sorted (· < ·) ∧
  st.ring.Chain' (fun a b => st.succ a = b ∧ st.pred b = a) ∧
  ∀ x ∈ st.ring.getLast?, ∀ y ∈ st.ring.head?, st.succ x = y ∧ st.pred y = x

end RingSim

namespace Spec

/-- The cyclic half-open arc `(a, b]` as the specification words it
(§3 Ring position): for `a < b` the set `{x : a < x ≤ b}`, for
`a ≥ b` the wrap-around set `{x : x > a} ∪ {x : x ≤ b}`. -/
def inArc (a b x : Int) : Prop :=
  if a < b then a < x ∧ x ≤ b else x > a ∨ x ≤ b

/-- The open cyclic arc `(a, b)`: the region in which a candidate
counts as a strictly better predecessor. -/
def inOpenArc (a b x : Int) : Prop :=
  if a < b then a < x ∧ x < b else x > a ∨ x < b

end Spec

/-! ## Theorems -/

section StorageLaws

variable {κ γ : Type} [DecidableEq κ]

theorem get_put_same (s : LocalStorage κ γ) (k : κ) (v : γ) :
    (s.put k v).get k = Option.some v := by
  induction s with
  | nil => simp [LocalStorage.put, LocalStorage.get]
  | cons hd tl ih =>
    obtain ⟨k0, v0⟩ := hd
    by_cases h : k0 = k
    · subst h; simp [LocalStorage.put, LocalStorage.get]
    · simpa [LocalStorage.put, LocalStorage.get, h] using ih

theorem get_put_other (s : LocalStorage κ γ) (k k' : κ) (v : γ) (h : k' ≠ k) :
    (s.put k v).get k' = s.get k' := by
  induction s with
  | nil => simp [LocalStorage.put, LocalStorage.get, Ne.symm h]
  | cons hd tl ih =>
    obtain ⟨k0, v0⟩ := hd
    by_cases hk : k0 = k
    · subst hk
      simp [LocalStorage.put, LocalStorage.get, Ne.symm h]
    · by_cases hk' : k0 = k'
      · subst hk'; simp [LocalStorage.put, LocalStorage.get, hk]
      · simpa [LocalStorage.put, LocalStorage.get, hk, hk'] using ih

theorem get_delete_same (s : LocalStorage κ γ) (k : κ) :
    (s.delete k).get k = Option.none := by
  induction s with
  | nil => simp [LocalStorage.delete, LocalStorage.get]
  | cons hd tl ih =>
    obtain ⟨k0, v0⟩ := hd
    by_cases h : k0 = k
    · subst h; simpa [LocalStorage.delete, LocalStorage.get] using ih
    · simp only [LocalStorage.delete, List.filter_cons] at *
      simpa [LocalStorage.get, h] using ih

theorem delete_idem (s : LocalStorage κ γ) (k : κ) :
    (s.delete k).delete k = s.delete k := by
  simp [LocalStorage.delete, List.filter_filter]

theorem delete_absent (s : LocalStorage κ γ) (k : κ) (h : s.get k = Option.none) :
    s.delete k = s := by
  induction s with
  | nil => simp [LocalStorage.delete]
  | cons hd tl ih =>
    obtain ⟨k0, v0⟩ := hd
    by_cases hk : k0 = k
    · subst hk; simp [LocalStorage.get] at h
    · have h' : LocalStorage.get tl k = Option.none := by
        simpa [LocalStorage.get, hk] using h
      simp [LocalStorage.delete, hk] at *
      exact ih h'

end StorageLaws

namespace Protocol

theorem ofWire_toWire (t : MessageType) :
    MessageType.ofWire (.scalar (.str t.toWire)) = Option.some t := by
  cases t <;> rfl

end Protocol

namespace RingSim

theorem insertIdx_takeWhile_length (p : ℕ → Bool) (a : ℕ) :
    ∀ l : List ℕ, l.insertIdx (l.takeWhile p).length a = l.takeWhile p ++ a :: l.dropWhile p := by
  intro l
  induction l with
  | nil => rfl
  | cons x xs ih =>
    by_cases hp : p x
    · simp only [List.takeWhile_cons_of_pos hp, List.dropWhile_cons_of_pos hp,
        List.length_cons, List.insertIdx_succ_cons, ih, List.cons_append]
    · simp only [List.takeWhile_cons_of_neg hp, List.dropWhile_cons_of_neg hp,
        List.length_nil, List.insertIdx_zero, List.nil_append]

theorem dropWhile_head_not (p : ℕ → Bool) :
    ∀ (l : List ℕ) (b : ℕ) (t : List ℕ), l.dropWhile p = b :: t → p b = false := by
  intro l
  induction l with
  | nil => intro b t h; cases h
  | cons x xs ih =>
    intro b t h
    by_cases hp : p x
    · exact ih b t (by simpa [List.dropWhile_cons_of_pos hp] using h)
    · rw [List.dropWhile_cons_of_neg hp] at h
      cases h
      simpa using hp

theorem chain'_imp_inner {α : Type} {R S : α → α → Prop} :
    ∀ l : List α, l.Nodup → l.Chain' R →
      (∀ a b, R a b → a ∈ l → b ∈ l → l.getLast? ≠ some a → l.head? ≠ some b → S a b) →
      l.Chain' S := by
  intro l
  induction l with
  | nil => intro _ _ _; exact trivial
  | cons x xs ih =>
    intro hnd hc himp
    cases xs with
    | nil => exact List.chain'_singleton x
    | cons y t =>
      rw [List.chain'_cons] at hc ⊢
      have hndt := (List.nodup_cons.mp hnd).2
      have hxnot : x ∉ y :: t := (List.nodup_cons.mp hnd).1
      refine ⟨?_, ?_⟩
      · refine himp x y hc.1 (List.mem_cons_self _ _)
          (List.mem_cons_of_mem _ (List.mem_cons_self _ _)) ?_ ?_
        · intro hlast
          have : x ∈ y :: t := by
            have h1 : (x :: y :: t).getLast? = (y :: t).getLast? := by
              simp [List.getLast?_cons_cons]
            have h2 : (y :: t).getLast? = some x := by rw [← h1, hlast]
            have := List.mem_getLast?_eq_getLast h2
            obtain ⟨hne, hx⟩ := this
            exact hx ▸ List.getLast_mem hne
          exact hxnot this
        · intro hhead
          simp only [List.head?_cons, Option.some.injEq] at hhead
          exact hxnot (hhead ▸ List.mem_cons_self _ _)
      · refine ih hndt hc.2 ?_
        intro a b hab ha hb hlast hhead
        refine himp a b hab (List.mem_cons_of_mem _ ha) (List.mem_cons_of_mem _ hb) ?_ ?_
        · intro h
          apply hlast
          rw [← h]
          simp [List.getLast?_cons_cons]
        · intro h
          simp only [List.head?_cons, Option.some.injEq] at h
          exact hxnot (h ▸ hb)

theorem chain'_mem_succ {α : Type} {R : α → α → Prop} :
    ∀ l : List α, l.Chain' R → ∀ x ∈ l, l.getLast? = some x ∨ ∃ y, R x y := by
  intro l
  induction l with
  | nil => intro _ x hx; cases hx
  | cons a xs ih =>
    intro hc x hx
    cases xs with
    | nil =>
      left
      simp only [List.mem_singleton] at hx
      simp [hx]
    | cons b t =>
      rw [List.chain'_cons] at hc
      rcases List.mem_cons.mp hx with rfl | hx'
      · exact Or.inr ⟨b, hc.1⟩
      · rcases ih hc.2 x hx' with h | h
        · left; rw [List.getLast?_cons_cons, h]
        · exact Or.inr h

theorem chain'_mem_pred {α : Type} {R : α → α → Prop} :
    ∀ l : List α, l.Chain' R → ∀ x ∈ l, l.head? = some x ∨ ∃ y, R y x := by
  intro l
  induction l with
  | nil => intro _ x hx; cases hx
  | cons a xs ih =>
    intro hc x hx
    cases xs with
    | nil =>
      left
      simp only [List.mem_singleton] at hx
      simp [hx]
    | cons b t =>
      rw [List.chain'_cons] at hc
      rcases List.mem_cons.mp hx with rfl | hx'
      · left; rfl
      · rcases ih hc.2 x hx' with h | h
        · simp only [List.head?_cons, Option.some.injEq] at h
          exact Or.inr ⟨a, h ▸ hc.1⟩
        · exact Or.inr h

theorem add_node_mem (st : RingState) (nid : ℕ) (x : ℕ) :
    x ∈ (add_node st nid).ring ↔ x = nid ∨ x ∈ st.ring := by
  by_cases he : st.ring.isEmpty
  · have : st.ring = [] := List.isEmpty_iff.mp he
    simp [add_node, he, this]
  · simp only [add_node, he, if_false]
    exact List.mem_insertIdx (by simpa using (List.takeWhile_prefix _).sublist.length_le)

theorem ringInv_consistent (st : RingState) (h : ringInv st) :
    ringConsistent st ∧
      (st.ring.length = 1 → ∀ x ∈ st.ring, st.succ x = x ∧ st.pred x = x) := by
  obtain ⟨hs, hc, hw⟩ := h
  have hcons : ∀ x ∈ st.ring, st.pred (st.succ x) = x ∧ st.succ (st.pred x) = x := by
    intro x hx
    have hne : st.ring ≠ [] := List.ne_nil_of_mem hx
    obtain ⟨hd, hhd⟩ : ∃ hd, st.ring.head? = some hd := by
      cases h : st.ring.head? with
      | none => exact absurd (List.head?_eq_none_iff.mp h) hne
      | some y => exact ⟨y, rfl⟩
    constructor
    · rcases chain'_mem_succ st.ring hc x hx with hlast | ⟨y, hy1, hy2⟩
      · obtain ⟨h1, h2⟩ := hw x hlast hd hhd
        rw [h1]
        have := hw x hlast hd hhd
        exact this.2
      · rw [hy1]; exact hy2
    · rcases chain'_mem_pred st.ring hc x hx with hhead | ⟨y, hy1, hy2⟩
      · obtain ⟨hl, hhl⟩ : ∃ hl, st.ring.getLast? = some hl := by
          cases h : st.ring.getLast? with
          | none => exact absurd (List.getLast?_eq_none_iff.mp h) hne
          | some y => exact ⟨y, rfl⟩
        have hx_hd : x = hd := by
          rw [hhd] at hhead; exact (Option.some.injEq _ _ ▸ hhead.symm : _)
        obtain ⟨h1, h2⟩ := hw hl hhl x hhead
        rw [h2]; exact h1
      · rw [hy2]; exact hy1
  refine ⟨⟨hs, hcons⟩, ?_⟩
  intro hlen x hx
  obtain ⟨a, ha⟩ := List.length_eq_one.mp hlen
  have hxa : x = a := by simpa [ha] using hx
  subst hxa
  have := hw x (by simp [ha]) x (by simp [ha])
  exact this

theorem getD_zero_head (l : List ℕ) (h : l ≠ []) : l.getD 0 0 = l.head h := by
  cases l with
  | nil => exact absurd rfl h
  | cons a t => rfl

theorem getD_getLast (l : List ℕ) (h : l ≠ []) : l.getD (l.length - 1) 0 = l.getLast h := by
  rw [List.getD_eq_getElem _ _ (by cases l with | nil => exact absurd rfl h | cons a t => simp),
    List.getLast_eq_getElem]

theorem add_node_inv (st : RingState) (nid : ℕ) (hinv : ringInv st) (hnot : nid ∉ st.ring) :
    ringInv (add_node st nid) := by
  obtain ⟨hs, hc, hw⟩ := hinv
  by_cases he : st.ring.isEmpty
  · have hr : st.ring = [] := List.isEmpty_iff.mp he
    have hstate : add_node st nid =
        ⟨[nid], Function.update st.succ nid nid, Function.update st.pred nid nid⟩ := by
      simp [add_node, he]
    rw [ringInv, hstate]
    refine ⟨by simp, by simp, ?_⟩
    intro x hx y hy
    simp only [List.getLast?_singleton, Option.mem_def, Option.some.injEq,
      List.head?_cons] at hx hy
    subst hx; subst hy
    simp [Function.update_same]
  · have hne : st.ring ≠ [] := by simpa [List.isEmpty_iff] using he
    set l₁ := st.ring.takeWhile (fun x => x < nid) with hl₁def
    set l₂ := st.ring.dropWhile (fun x => x < nid) with hl₂def
    have hsplit : l₁ ++ l₂ = st.ring := List.takeWhile_append_dropWhile _ _
    set ring' := st.ring.insertIdx l₁.length nid with hr'def
    have hrw : ring' = l₁ ++ nid :: l₂ := insertIdx_takeWhile_length _ nid st.ring
    set n := ring'.length with hndef
    set succId := ring'.getD ((l₁.length + 1) % n) 0 with hsiddef
    set predId := ring'.getD ((l₁.length + n - 1) % n) 0 with hpiddef
    have hstate : add_node st nid =
        ⟨ring', Function.update (Function.update st.succ nid succId) predId nid,
         Function.update (Function.update st.pred nid predId) succId nid⟩ := by
      simp only [add_node, he, if_false]
      rfl
    have hn : n = l₁.length + l₂.length + 1 := by
      rw [hndef, hrw]; simp; omega
    -- order facts for the two halves
    have hnd : st.ring.Nodup := hs.imp (fun h => ne_of_lt h)
    have hsplit' : st.ring = l₁ ++ l₂ := hsplit.symm
    have hpw := hsplit' ▸ hs
    rw [List.Sorted, List.pairwise_append] at hpw
    obtain ⟨hs₁, hs₂, hcross⟩ := hpw
    have hnd12 := hsplit' ▸ hnd
    rw [List.nodup_append] at hnd12
    obtain ⟨hnd₁, hnd₂, hdisj⟩ := hnd12
    have hmem1 : ∀ x ∈ l₁, x ∈ st.ring := fun x hx => hsplit ▸ List.mem_append_left _ hx
    have hmem2 : ∀ x ∈ l₂, x ∈ st.ring := fun x hx => hsplit ▸ List.mem_append_right _ hx
    have hlt1 : ∀ x ∈ l₁, x < nid := fun x hx => by
      simpa using List.mem_takeWhile_imp hx
    have hlt2 : ∀ y ∈ l₂, nid < y := by
      intro y hy
      cases hdrop : l₂ with
      | nil => rw [hdrop] at hy; cases hy
      | cons b t =>
        have hb := dropWhile_head_not (fun x => decide (x < nid)) st.ring b t
          (by rw [← hl₂def, hdrop])
        have hble : ¬ b < nid := by simpa using hb
        have hbn : b ≠ nid := by
          intro h
          exact hnot (h ▸ hmem2 b (hdrop ▸ List.mem_cons_self _ _))
        rw [hdrop] at hy
        rcases List.mem_cons.mp hy with rfl | hyt
        · omega
        · have hby : b < y := by
            rw [hdrop, List.pairwise_cons] at hs₂
            exact hs₂.1 y hyt
          omega
    -- sortedness of the new list
    have hsort' : (l₁ ++ nid :: l₂).Sorted (· < ·) := by
      rw [List.Sorted, List.pairwise_append]
      refine ⟨hs₁, ?_, ?_⟩
      · rw [List.pairwise_cons]
        exact ⟨hlt2, hs₂⟩
      · intro x hx y hy
        rcases List.mem_cons.mp hy with rfl | hy₂
        · exact hlt1 x hx
        · exact hcross x hx y hy₂
    have hnd' : (l₁ ++ nid :: l₂).Nodup := hsort'.imp (fun h => ne_of_lt h)
    -- the values read at (index + 1) % n and (index + n - 1) % n
    have hsucc_cons : ∀ b t, l₂ = b :: t → succId = b := by
      intro b t hdrop
      have hlen : l₁.length + 1 < n := by rw [hn, hdrop]; simp
      rw [hsiddef, Nat.mod_eq_of_lt hlen, hrw,
        List.getD_append_right _ _ _ _ (Nat.le_succ _), hdrop]
      simp
    have hsucc_nil : l₂ = [] → ∀ h1 : l₁ ≠ [], succId = l₁.head h1 := by
      intro hdrop h1
      have hidx : l₁.length + 1 = n := by rw [hn, hdrop]; simp
      rw [hsiddef, hidx, Nat.mod_self, hrw,
        List.getD_append _ _ _ _ (List.length_pos.mpr h1)]
      exact getD_zero_head l₁ h1
    have hpred_cons : ∀ h1 : l₁ ≠ [], predId = l₁.getLast h1 := by
      intro h1
      have hpos : 1 ≤ l₁.length := by
        cases h : l₁ with
        | nil => exact absurd h h1
        | cons a t => simp [h]
      have harith : l₁.length + n - 1 = n + (l₁.length - 1) := by omega
      have hlt : l₁.length - 1 < n := by omega
      rw [hpiddef, harith, Nat.add_mod_left, Nat.mod_eq_of_lt hlt, hrw,
        List.getD_append _ _ _ _ (by omega)]
      exact getD_getLast l₁ h1
    have hpred_nil : l₁ = [] → ∀ h2 : l₂ ≠ [], predId = l₂.getLast h2 := by
      intro h1 h2
      have hlen2 : 1 ≤ l₂.length := by
        cases h : l₂ with
        | nil => exact absurd h h2
        | cons a t => simp [h]
      have harith : l₁.length + n - 1 = n - 1 := by rw [h1]; simp
      have hlt : n - 1 < n := by omega
      rw [hpiddef, harith, Nat.mod_eq_of_lt hlt, hrw, h1]
      simp only [List.nil_append]
      have hn1 : n - 1 = l₂.length := by rw [hn, h1]; simp
      rw [hn1]
      have : (nid :: l₂).getD l₂.length 0 = l₂.getD (l₂.length - 1) 0 := by
        cases h : l₂ with
        | nil => exact absurd h h2
        | cons a t => simp [h]
      rw [this]
      exact getD_getLast l₂ h2
    -- the two read ids are existing members, hence distinct from the new id
    have hpred_mem : predId ∈ st.ring := by
      cases h1 : l₁ with
      | nil =>
        have h2 : l₂ ≠ [] := by
          intro h2
          exact hne (by rw [hsplit', h1, h2]; rfl)
        rw [hpred_nil h1 h2]
        exact hmem2 _ (List.getLast_mem h2)
      | cons a t =>
        rw [hpred_cons (by simp [h1])]
        exact hmem1 _ (List.getLast_mem _)
    have hsucc_mem : succId ∈ st.ring := by
      cases h2 : l₂ with
      | nil =>
        have h1 : l₁ ≠ [] := by
          intro h1
          exact hne (by rw [hsplit', h1, h2]; rfl)
        rw [hsucc_nil h2 h1]
        exact hmem1 _ (List.head_mem h1)
      | cons b t =>
        rw [hsucc_cons b t h2]
        exact hmem2 _ (by rw [h2]; exact List.mem_cons_self _ _)
    have hnid_pred : nid ≠ predId := fun h => hnot (h ▸ hpred_mem)
    have hnid_succ : nid ≠ succId := fun h => hnot (h ▸ hsucc_mem)
    -- pointwise behaviour of the updated maps
    set succ' := Function.update (Function.update st.succ nid succId) predId nid with hsmap
    set pred' := Function.update (Function.update st.pred nid predId) succId nid with hpmap
    have hsucc'_old : ∀ a, a ≠ nid → a ≠ predId → succ' a = st.succ a := by
      intro a h1 h2
      rw [hsmap, Function.update_noteq h2, Function.update_noteq h1]
    have hsucc'_nid : succ' nid = succId := by
      rw [hsmap, Function.update_noteq hnid_pred, Function.update_same]
    have hsucc'_pred : succ' predId = nid := by
      rw [hsmap, Function.update_same]
    have hpred'_old : ∀ a, a ≠ nid → a ≠ succId → pred' a = st.pred a := by
      intro a h1 h2
      rw [hpmap, Function.update_noteq h2, Function.update_noteq h1]
    have hpred'_nid : pred' nid = predId := by
      rw [hpmap, Function.update_noteq hnid_succ, Function.update_same]
    have hpred'_succ : pred' succId = nid := by
      rw [hpmap, Function.update_same]
    -- split the old chain along the two halves
    have hc' : (l₁ ++ l₂).Chain' (fun a b => st.succ a = b ∧ st.pred b = a) := by
      rw [hsplit]; exact hc
    rw [List.chain'_append] at hc'
    obtain ⟨hc₁, hc₂, hclink⟩ := hc'
    -- the rebuilt chain on the first half
    have hchain₁ : l₁.Chain' (fun a b => succ' a = b ∧ pred' b = a) := by
      refine chain'_imp_inner l₁ hnd₁ hc₁ ?_
      intro a b hab ha hb hla hhb
      have h1a : l₁ ≠ [] := List.ne_nil_of_mem ha
      have hanid : a ≠ nid := fun h => hnot (h ▸ hmem1 a ha)
      have hbnid : b ≠ nid := fun h => hnot (h ▸ hmem1 b hb)
      have hapred : a ≠ predId := by
        rw [hpred_cons h1a]
        intro h
        exact hla (by rw [List.getLast?_eq_getLast_of_ne_nil h1a, h])
      have hbsucc : b ≠ succId := by
        cases h2 : l₂ with
        | nil =>
          rw [hsucc_nil h2 h1a]
          intro h
          exact hhb (by rw [List.head?_eq_head h1a, h])
        | cons c t =>
          rw [hsucc_cons c t h2]
          intro h
          exact hdisj hb (by rw [h, h2]; exact List.mem_cons_self _ _)
      exact ⟨by rw [hsucc'_old a hanid hapred]; exact hab.1,
             by rw [hpred'_old b hbnid hbsucc]; exact hab.2⟩
    -- the rebuilt chain on the new node and the second half
    have hchain₂ : (nid :: l₂).Chain' (fun a b => succ' a = b ∧ pred' b = a) := by
      cases h2 : l₂ with
      | nil => exact List.chain'_singleton nid
      | cons c t =>
        have hcl : l₂.Chain' (fun a b => succ' a = b ∧ pred' b = a) := by
          refine chain'_imp_inner l₂ hnd₂ hc₂ ?_
          intro a b hab ha hb hla hhb
          have h2ne : l₂ ≠ [] := List.ne_nil_of_mem ha
          have hanid : a ≠ nid := fun h => hnot (h ▸ hmem2 a ha)
          have hbnid : b ≠ nid := fun h => hnot (h ▸ hmem2 b hb)
          have hapred : a ≠ predId := by
            cases h1 : l₁ with
            | nil =>
              rw [hpred_nil h1 h2ne]
              intro h
              exact hla (by rw [List.getLast?_eq_getLast_of_ne_nil h2ne, h])
            | cons d u =>
              have h1ne : l₁ ≠ [] := by rw [h1]; exact List.cons_ne_nil _ _
              rw [hpred_cons h1ne]
              intro h
              exact hdisj (by rw [h]; exact List.getLast_mem h1ne) ha
          have hbsucc : b ≠ succId := by
            rw [hsucc_cons c t h2]
            intro h
            exact hhb (by rw [h2, List.head?_cons, h])
          exact ⟨by rw [hsucc'_old a hanid hapred]; exact hab.1,
                 by rw [hpred'_old b hbnid hbsucc]; exact hab.2⟩
        rw [h2] at hcl
        refine List.chain'_cons.mpr ⟨⟨?_, ?_⟩, hcl⟩
        · rw [hsucc'_nid, hsucc_cons c t h2]
        · rw [← hsucc_cons c t h2, hpred'_succ]
    -- the link between the two halves
    have hlink : ∀ x ∈ l₁.getLast?, ∀ y ∈ (nid :: l₂).head?,
        succ' x = y ∧ pred' y = x := by
      intro x hx y hy
      simp only [List.head?_cons, Option.mem_def, Option.some.injEq] at hy
      subst hy
      obtain ⟨h1, hx'⟩ := List.mem_getLast?_eq_getLast hx
      refine ⟨?_, ?_⟩
      · rw [hx', ← hpred_cons h1, hsucc'_pred]
      · rw [hpred'_nid, hpred_cons h1, ← hx']
    have hchain' : (l₁ ++ nid :: l₂).Chain' (fun a b => succ' a = b ∧ pred' b = a) :=
      List.chain'_append.mpr ⟨hchain₁, hchain₂, hlink⟩
    -- the wrap-around clause of the new state
    have hwrap : ∀ x ∈ (l₁ ++ nid :: l₂).getLast?, ∀ y ∈ (l₁ ++ nid :: l₂).head?,
        succ' x = y ∧ pred' y = x := by
      intro x hx y hy
      cases h2 : l₂ with
      | nil =>
        rw [h2] at hx hy
        rw [List.getLast?_concat] at hx
        simp only [Option.mem_def, Option.some.injEq] at hx
        subst hx
        have h1 : l₁ ≠ [] := by
          intro h
          exact hne (by rw [hsplit', h, h2]; rfl)
        rw [List.head?_append_of_ne_nil _ h1, List.head?_eq_head h1] at hy
        simp only [Option.mem_def, Option.some.injEq] at hy
        subst hy
        refine ⟨?_, ?_⟩
        · rw [hsucc'_nid, hsucc_nil h2 h1]
        · rw [← hsucc_nil h2 h1, hpred'_succ]
      | cons c t =>
        have h2ne : l₂ ≠ [] := by rw [h2]; exact List.cons_ne_nil _ _
        have hgl : (l₁ ++ nid :: l₂).getLast? = some (l₂.getLast h2ne) := by
          rw [List.getLast?_append_of_ne_nil _ (List.cons_ne_nil _ _)]
          conv_lhs => rw [h2]
          rw [List.getLast?_cons_cons, ← h2, List.getLast?_eq_getLast_of_ne_nil h2ne]
        rw [hgl] at hx
        simp only [Option.mem_def, Option.some.injEq] at hx
        subst hx
        have hglmem : l₂.getLast h2ne ∈ l₂ := List.getLast_mem h2ne
        cases h1 : l₁ with
        | nil =>
          rw [h1] at hy
          simp only [List.nil_append, List.head?_cons, Option.mem_def,
            Option.some.injEq] at hy
          subst hy
          refine ⟨?_, ?_⟩
          · rw [← hpred_nil h1 h2ne, hsucc'_pred]
          · rw [hpred'_nid, hpred_nil h1 h2ne]
        | cons d u =>
          have h1ne : l₁ ≠ [] := by rw [h1]; exact List.cons_ne_nil _ _
          rw [List.head?_append_of_ne_nil _ h1ne, List.head?_eq_head h1ne] at hy
          simp only [Option.mem_def, Option.some.injEq] at hy
          subst hy
          have hlast_ring : st.ring.getLast? = some (l₂.getLast h2ne) := by
            rw [hsplit', List.getLast?_append_of_ne_nil _ h2ne,
              List.getLast?_eq_getLast_of_ne_nil h2ne]
          have hhead_ring : st.ring.head? = some (l₁.head h1ne) := by
            rw [hsplit', List.head?_append_of_ne_nil _ h1ne, List.head?_eq_head h1ne]
          obtain ⟨ho1, ho2⟩ := hw _ hlast_ring _ hhead_ring
          have hgl_nid : l₂.getLast h2ne ≠ nid := fun h => hnot (h ▸ hmem2 _ hglmem)
          have hgl_pred : l₂.getLast h2ne ≠ predId := by
            rw [hpred_cons h1ne]
            intro h
            exact hdisj (by rw [h]; exact List.getLast_mem h1ne) hglmem
          have hhd_nid : l₁.head h1ne ≠ nid :=
            fun h => hnot (h ▸ hmem1 _ (List.head_mem h1ne))
          have hhd_succ : l₁.head h1ne ≠ succId := by
            rw [hsucc_cons c t h2]
            intro h
            exact hdisj (List.head_mem h1ne) (by rw [h, h2]; exact List.mem_cons_self _ _)
          exact ⟨by rw [hsucc'_old _ hgl_nid hgl_pred]; exact ho1,
                 by rw [hpred'_old _ hhd_nid hhd_succ]; exact ho2⟩
    rw [ringInv, hstate]
    exact ⟨by rw [hrw]; exact hsort', by rw [hrw]; exact hchain', by rw [hrw]; exact hwrap⟩

theorem foldl_add_node_inv :
    ∀ (ids : List ℕ) (st : RingState), ringInv st → (∀ x ∈ ids, x ∉ st.ring) →
      ids.Nodup → ringInv (ids.foldl add_node st) := by
  intro ids
  induction ids with
  | nil => intro st h _ _; exact h
  | cons a rest ih =>
    intro st h hnotin hnd
    simp only [List.foldl_cons]
    refine ih (add_node st a) (add_node_inv st a h (hnotin a (List.mem_cons_self _ _))) ?_
      ((List.nodup_cons.mp hnd).2)
    intro x hx hmem
    rcases (add_node_mem st a x).mp hmem with rfl | hring
    · exact (List.nodup_cons.mp hnd).1 hx
    · exact hnotin x (List.mem_cons_of_mem _ hx) hring

theorem emptyRing_inv : ringInv emptyRing := by
  refine ⟨by simp [emptyRing], by simp [emptyRing], ?_⟩
  intro x hx
  simp [emptyRing] at hx

end RingSim

/-! ## Claims -/

/-- Claim C1, counterexample to the claim as stated: in the overlay
state whose predecessor id equals the node's own id (node id 5,
predecessor id 5), `is_responsible(p.id)` evaluates to `true` — the
wrap-around branch `target > p.id or target <= n.id` accepts
`target = p.id = n.id` — whereas the claim demands
`is_responsible(p.id) = false` for every state with a predecessor. -/
theorem C1_counterexample :
    Overlay.is_responsible
      { ip := "127.0.0.1", port := 5000, node_id := 5,
        successor := ⟨5, PyVal.str "127.0.0.1", PyVal.num 5000⟩,
        predecessor := Option.some ⟨5, PyVal.str "127.0.0.1", PyVal.num 5000⟩,
        last_heartbeat := 0 } 5 = true := by decide

/-- Claim C1, amended: with no predecessor every id is accepted;
`is_responsible(self.id)` is always true; with predecessor `p`,
`is_responsible(x)` holds iff `x` lies in the cyclic half-open arc
`(p.id, self.id]`, and in the wrap-around case `p.id ≥ self.id` that
arc is `{x : x > p.id} ∪ {x : x ≤ self.id}`; `is_responsible(p.id)` is
false whenever `p.id ≠ self.id` (for `p.id = self.id` the arc is the
whole ring, so it is true — the sole correction to the claim). -/
theorem C1_is_responsible_arc (st : Overlay.OverlayState) (x : Int) :
    (st.predecessor = Option.none → Overlay.is_responsible st x = true) ∧
    Overlay.is_responsible st st.node_id = true ∧
    ∀ p, st.predecessor = Option.some p →
      (Overlay.is_responsible st x = true ↔ Spec.inArc p.pid st.node_id x) ∧
      (p.pid ≠ st.node_id → Overlay.is_responsible st p.pid = false) ∧
      (st.node_id ≤ p.pid →
        (Overlay.is_responsible st x = true ↔ (x > p.pid ∨ x ≤ st.node_id))) := by
  refine ⟨fun h => by simp [Overlay.is_responsible, h], ?_, ?_⟩
  · cases h : st.predecessor with
    | none => simp [Overlay.is_responsible, h]
    | some p =>
      simp only [Overlay.is_responsible, h]
      split_ifs with hlt <;> simp <;> omega
  · intro p hp
    refine ⟨?_, ?_, ?_⟩
    · simp only [Overlay.is_responsible, hp, Spec.inArc]
      split_ifs with hlt <;> simp
    · intro hne
      simp only [Overlay.is_responsible, hp]
      split_ifs with hlt <;> simp <;> omega
    · intro hge
      simp only [Overlay.is_responsible, hp]
      split_ifs with hlt <;> simp <;> omega

/-- Claim C1, witness: the amended theorem applied to the concrete
state with node id 10 and predecessor id 3 shows the predecessor's own
id is not accepted. -/
theorem C1_witness :
    Overlay.is_responsible
      { ip := "a", port := 1, node_id := 10,
        successor := ⟨10, PyVal.str "a", PyVal.num 1⟩,
        predecessor := Option.some ⟨3, PyVal.str "b", PyVal.num 2⟩,
        last_heartbeat := 0 } 3 = false :=
  ((C1_is_responsible_arc
      { ip := "a", port := 1, node_id := 10,
        successor := ⟨10, PyVal.str "a", PyVal.num 1⟩,
        predecessor := Option.some ⟨3, PyVal.str "b", PyVal.num 2⟩,
        last_heartbeat := 0 } 0).2.2 ⟨3, PyVal.str "b", PyVal.num 2⟩ rfl).2.1 (by decide)

/-- Claim C2, evaluated at the failing input: a singleton node (id 7)
with a non-empty store receives JOIN from peer 42 at 10.0.0.2:9000.
The handler updates its successor and predecessor to the new peer, but
then `transferir_llaves` raises `TypeError` (it calls
`overlay.is_responsible(k_hash, nuevo_nodo_id)` with two positional
arguments while the method accepts one), the catch-all `except`
swallows it, and the handler returns with the sent-message list empty:
no key handoff `PUT` and no `UPDATE(role=predecessor)` reply is sent,
contrary to the claim. -/
theorem C2_join_nonempty_store :
    Dispatcher.procesarJoin
      ⟨{ ip := "10.0.0.1", port := 8000, node_id := 7,
         successor := ⟨7, PyVal.str "10.0.0.1", PyVal.num 8000⟩,
         predecessor := Option.none, last_heartbeat := 0 },
       [(PyVal.str "a", PyVal.str "1")]⟩
      "42" [("ip", PyVal.str "10.0.0.2"), ("port", PyVal.num 9000)] 0 =
      (⟨{ ip := "10.0.0.1", port := 8000, node_id := 7,
          successor := ⟨42, PyVal.str "10.0.0.2", PyVal.num 9000⟩,
          predecessor := Option.some ⟨42, PyVal.str "10.0.0.2", PyVal.num 9000⟩,
          last_heartbeat := 0 },
        [(PyVal.str "a", PyVal.str "1")]⟩,
       []) := by
  decide

/-- Claim C3: a received `PUT(key, value, is_replica)` stores the pair
unconditionally and leaves the overlay untouched; when the replica
flag is falsy (false or absent) and the successor is a distinct node,
exactly one replica `PUT(key, value, is_replica=true)` is sent to the
successor; when the flag is truthy, or the successor is the node
itself, nothing is sent — replicas are never re-replicated. -/
theorem C3_put_replication (st : Dispatcher.NodeState) (data : List (String × PyVal))
    (key val : PyVal) (now : ℚ)
    (hk : lookupKey data "key" = Option.some key)
    (hv : lookupKey data "value" = Option.some val) :
    (Dispatcher.procesarPut st data now).1.storage = st.storage.put key val ∧
    (Dispatcher.procesarPut st data now).1.overlay = st.overlay ∧
    (pyTruthy (lookupKey data "is_replica") = false ∧
        st.overlay.successor.pid ≠ st.overlay.node_id →
      (Dispatcher.procesarPut st data now).2 =
        [⟨st.overlay.successor.ip, st.overlay.successor.port,
          ⟨.PUT, toString st.overlay.node_id,
           .obj [("key", key), ("value", val), ("is_replica", .bool true)],
           .scalar (.num now)⟩⟩]) ∧
    (pyTruthy (lookupKey data "is_replica") = true →
      (Dispatcher.procesarPut st data now).2 = []) ∧
    (st.overlay.successor.pid = st.overlay.node_id →
      (Dispatcher.procesarPut st data now).2 = []) := by
  simp only [Dispatcher.procesarPut, hk, hv]
  split_ifs with h
  · exact ⟨rfl, rfl, fun _ => rfl, fun ht => absurd ht (by simp [h.1]),
      fun he => absurd he h.2⟩
  · exact ⟨rfl, rfl, fun hc => absurd hc h, fun _ => rfl, fun _ => rfl⟩

/-- Claim C3, witness: the theorem applied to an empty store and the
payload key=k, value=v shows the pair is stored. -/
theorem C3_witness :
    (Dispatcher.procesarPut
      ⟨{ ip := "1.1.1.1", port := 1, node_id := 1,
         successor := ⟨2, PyVal.str "2.2.2.2", PyVal.num 2⟩,
         predecessor := Option.none, last_heartbeat := 0 }, []⟩
      [("key", PyVal.str "k"), ("value", PyVal.str "v")] 0).1.storage =
      LocalStorage.put [] (PyVal.str "k") (PyVal.str "v") :=
  (C3_put_replication
    ⟨{ ip := "1.1.1.1", port := 1, node_id := 1,
       successor := ⟨2, PyVal.str "2.2.2.2", PyVal.num 2⟩,
       predecessor := Option.none, last_heartbeat := 0 }, []⟩
    [("key", PyVal.str "k"), ("value", PyVal.str "v")]
    (PyVal.str "k") (PyVal.str "v") 0 rfl rfl).1

/-- Claim C4, counterexample to the claim as stated: the key k is
present in the local store bound to the empty string, and the
requester differs from this peer, yet the handler does not send a
`RESULT` to the requester — `if val:` treats the falsy stored value as
absent and forwards the envelope to the successor instead. -/
theorem C4_counterexample :
    (LocalStorage.get ([(PyVal.str "k", PyVal.str "")] : LocalStorage PyVal PyVal)
        (PyVal.str "k") = Option.some (PyVal.str "")) ∧
    Dispatcher.procesarGet
      ⟨{ ip := "1.1.1.1", port := 1, node_id := 1,
         successor := ⟨2, PyVal.str "2.2.2.2", PyVal.num 2⟩,
         predecessor := Option.none, last_heartbeat := 0 },
       [(PyVal.str "k", PyVal.str "")]⟩
      ⟨.GET, "9",
       .obj [("key", PyVal.str "k"), ("requester_ip", PyVal.str "3.3.3.3"),
             ("requester_port", PyVal.num 3)], .scalar (.num 0)⟩ 0 =
      [⟨PyVal.str "2.2.2.2", PyVal.num 2,
        ⟨.GET, "9",
         .obj [("key", PyVal.str "k"), ("requester_ip", PyVal.str "3.3.3.3"),
               ("requester_port", PyVal.num 3)], .scalar (.num 0)⟩⟩] :=
  ⟨rfl, rfl⟩

/-- Claim C4, amended: if the key is bound to a truthy value (in
particular any non-empty string), a `RESULT(key, value)` is sent
directly to the requester address; if the lookup is falsy (key absent,
or bound to a falsy value such as the empty string — the correction to
the claim) the envelope is forwarded unchanged to the successor unless
this peer is itself the requester, in which case nothing is sent. -/
theorem C4_get_truthy (st : Dispatcher.NodeState) (msg : Protocol.Message)
    (data : List (String × PyVal)) (key rip rport : PyVal) (now : ℚ)
    (hd : msg.data = JVal.obj data)
    (hk : lookupKey data "key" = Option.some key)
    (hip : lookupKey data "requester_ip" = Option.some rip)
    (hport : lookupKey data "requester_port" = Option.some rport) :
    (∀ v, st.storage.get key = Option.some v → v.truthy = true →
      Dispatcher.procesarGet st msg now =
        [⟨rip, rport,
          ⟨.RESULT, toString st.overlay.node_id,
           .obj [("key", key), ("value", v)], .scalar (.num now)⟩⟩]) ∧
    (pyTruthy (st.storage.get key) = false →
      ((Dispatcher.PyVal.eqInt rport st.overlay.port = false ∨
          Dispatcher.PyVal.eqStr rip st.overlay.ip = false) →
        Dispatcher.procesarGet st msg now =
          [⟨st.overlay.successor.ip, st.overlay.successor.port, msg⟩]) ∧
      (Dispatcher.PyVal.eqInt rport st.overlay.port = true ∧
          Dispatcher.PyVal.eqStr rip st.overlay.ip = true →
        Dispatcher.procesarGet st msg now = [])) := by
  constructor
  · intro v hv htr
    simp [Dispatcher.procesarGet, hd, hk, hip, hport, hv, pyTruthy, htr]
  · intro hf
    constructor
    · intro hne
      simp only [Dispatcher.procesarGet, hd, hk, hip, hport, hf]
      rcases hne with h | h <;> simp [h, hf]
    · intro ⟨h1, h2⟩
      simp [Dispatcher.procesarGet, hd, hk, hip, hport, hf, h1, h2]

/-- Claim C4, witness: the amended theorem applied to a store holding
k with a falsy value and a foreign requester yields the forward to the
successor. -/
theorem C4_witness :
    Dispatcher.procesarGet
      ⟨{ ip := "1.1.1.1", port := 1, node_id := 1,
         successor := ⟨2, PyVal.str "2.2.2.2", PyVal.num 2⟩,
         predecessor := Option.none, last_heartbeat := 0 },
       [(PyVal.str "k", PyVal.str "")]⟩
      ⟨.GET, "9",
       .obj [("key", PyVal.str "x"), ("requester_ip", PyVal.str "3.3.3.3"),
             ("requester_port", PyVal.num 3)], .scalar (.num 0)⟩ 0 =
      [⟨PyVal.str "2.2.2.2", PyVal.num 2,
        ⟨.GET, "9",
         .obj [("key", PyVal.str "x"), ("requester_ip", PyVal.str "3.3.3.3"),
               ("requester_port", PyVal.num 3)], .scalar (.num 0)⟩⟩] :=
  (((C4_get_truthy
      ⟨{ ip := "1.1.1.1", port := 1, node_id := 1,
         successor := ⟨2, PyVal.str "2.2.2.2", PyVal.num 2⟩,
         predecessor := Option.none, last_heartbeat := 0 },
       [(PyVal.str "k", PyVal.str "")]⟩
      ⟨.GET, "9",
       .obj [("key", PyVal.str "x"), ("requester_ip", PyVal.str "3.3.3.3"),
             ("requester_port", PyVal.num 3)], .scalar (.num 0)⟩
      [("key", PyVal.str "x"), ("requester_ip", PyVal.str "3.3.3.3"),
       ("requester_port", PyVal.num 3)]
      (PyVal.str "x") (PyVal.str "3.3.3.3") (PyVal.num 3) 0
      rfl rfl rfl rfl).2 rfl).1 (Or.inl rfl))

/-- Claim C5: one maintenance tick.  When the successor is a distinct
node a `HEARTBEAT(self.id, self.ip, self.port)` is sent to it, and a
failed send resets the successor to the node itself
(`handle_successor_failure`), while a successful send leaves it
unchanged; with the successor equal to self nothing is sent; and the
predecessor is cleared to none exactly when one exists and more than
15 seconds have passed since its last heartbeat. -/
theorem C5_maintenance_tick (ov : Overlay.OverlayState) (send_ok : Bool) (now : ℚ) :
    (ov.successor.pid ≠ ov.node_id →
      (Dispatcher.tareas_mantenimiento_tick ov send_ok now).2 =
        [⟨ov.successor.ip, ov.successor.port,
          ⟨.HEARTBEAT, toString ov.node_id,
           .obj [("ip", PyVal.str ov.ip), ("port", PyVal.num (ov.port : ℚ))],
           .scalar (.num now)⟩⟩] ∧
      (send_ok = false →
        (Dispatcher.tareas_mantenimiento_tick ov send_ok now).1.successor = ov.selfRef) ∧
      (send_ok = true →
        (Dispatcher.tareas_mantenimiento_tick ov send_ok now).1.successor = ov.successor)) ∧
    (ov.successor.pid = ov.node_id →
      (Dispatcher.tareas_mantenimiento_tick ov send_ok now).2 = [] ∧
      (Dispatcher.tareas_mantenimiento_tick ov send_ok now).1.successor = ov.successor) ∧
    (ov.predecessor.isSome = true ∧ now - ov.last_heartbeat > 15 →
      (Dispatcher.tareas_mantenimiento_tick ov send_ok now).1.predecessor = Option.none) ∧
    (¬ (ov.predecessor.isSome = true ∧ now - ov.last_heartbeat > 15) →
      (Dispatcher.tareas_mantenimiento_tick ov send_ok now).1.predecessor =
        ov.predecessor) := by
  simp only [Dispatcher.tareas_mantenimiento_tick, Overlay.handle_successor_failure]
  split_ifs with h1 h2 h3 <;> simp_all

/-- Claim C5, witness: the theorem applied to a node (id 1) whose
successor is a distinct node (id 2), with a failed send, collapses the
successor back to the node itself. -/
theorem C5_witness :
    (Dispatcher.tareas_mantenimiento_tick
      { ip := "1.1.1.1", port := 1, node_id := 1,
        successor := ⟨2, PyVal.str "2.2.2.2", PyVal.num 2⟩,
        predecessor := Option.none, last_heartbeat := 0 } false 20).1.successor =
      Overlay.OverlayState.selfRef
        { ip := "1.1.1.1", port := 1, node_id := 1,
          successor := ⟨2, PyVal.str "2.2.2.2", PyVal.num 2⟩,
          predecessor := Option.none, last_heartbeat := 0 } :=
  ((C5_maintenance_tick
      { ip := "1.1.1.1", port := 1, node_id := 1,
        successor := ⟨2, PyVal.str "2.2.2.2", PyVal.num 2⟩,
        predecessor := Option.none, last_heartbeat := 0 } false 20).1
    (by decide)).2.1 rfl

/-- Claim C6, counterexample to the claim as stated: a node with id
100 and current predecessor 80 is notified by a peer with id 40; the
claim says the sender is unconditionally accepted, but after the call
the predecessor is still 80 (the repository's own test
test_notify_rejects_worse_predecessor asserts exactly this
rejection). -/
theorem C6_counterexample :
    (Overlay.notify
      { ip := "127.0.0.1", port := 5000, node_id := 100,
        successor := ⟨100, PyVal.str "127.0.0.1", PyVal.num 5000⟩,
        predecessor := Option.some ⟨80, PyVal.str "127.0.0.1", PyVal.num 5003⟩,
        last_heartbeat := 0 } 40 (PyVal.str "127.0.0.1") (PyVal.num 5004)).1.predecessor
      = Option.some ⟨80, PyVal.str "127.0.0.1", PyVal.num 5003⟩ := by decide

/-- Claim C6, amended: `notify` accepts the sender as the new
predecessor iff there is no current predecessor or the sender's id
lies in the open cyclic arc `(predecessor.id, self.id)` (the
is_better_predecessor test); on acceptance the predecessor becomes the
sender, otherwise the state is unchanged. -/
theorem C6_notify_conditional (st : Overlay.OverlayState) (p_id : Int) (ip port : PyVal) :
    ((Overlay.notify st p_id ip port).2 = true ↔
      (st.predecessor = Option.none ∨
        ∃ cur, st.predecessor = Option.some cur ∧
          Spec.inOpenArc cur.pid st.node_id p_id)) ∧
    ((Overlay.notify st p_id ip port).2 = true →
      (Overlay.notify st p_id ip port).1.predecessor = Option.some ⟨p_id, ip, port⟩) ∧
    ((Overlay.notify st p_id ip port).2 = false →
      (Overlay.notify st p_id ip port).1 = st) := by
  cases h : st.predecessor with
  | none =>
    simp [Overlay.notify, h, Overlay.update_predecessor]
  | some cur =>
    simp only [Overlay.notify, Overlay.is_better_predecessor, h, Option.isNone_some,
      Bool.false_or, Spec.inOpenArc]
    split_ifs with hb <;>
      simp_all [Overlay.update_predecessor, Spec.inOpenArc] <;> split_ifs <;> simp_all

/-- Claim C6, witness: the amended theorem applied to a node with no
predecessor shows the sender is accepted and installed. -/
theorem C6_witness :
    (Overlay.notify
      { ip := "1.1.1.1", port := 1, node_id := 1,
        successor := ⟨1, PyVal.str "1.1.1.1", PyVal.num 1⟩,
        predecessor := Option.none, last_heartbeat := 0 }
      40 (PyVal.str "4.4.4.4") (PyVal.num 4)).1.predecessor =
      Option.some ⟨40, PyVal.str "4.4.4.4", PyVal.num 4⟩ :=
  (C6_notify_conditional
    { ip := "1.1.1.1", port := 1, node_id := 1,
      successor := ⟨1, PyVal.str "1.1.1.1", PyVal.num 1⟩,
      predecessor := Option.none, last_heartbeat := 0 }
    40 (PyVal.str "4.4.4.4") (PyVal.num 4)).2.1 (by decide)

/-- Claim C7, counterexample to the claim as stated: a GET frame whose
data carries only the key — no requester_ip and no requester_port —
deserializes successfully, whereas the claim requires it to fail
validation (the validator checks only the key for GET; the
repository's own test test_tipos_mensaje_validos round-trips exactly
such a GET). -/
theorem C7_counterexample :
    Protocol.deserialize_message (Option.some
      [("type", .scalar (.str "GET")), ("sender_id", .scalar (.str "1")),
       ("data", .obj [("key", PyVal.str "k")]), ("timestamp", .scalar (.num 1))]) =
      Except.ok ⟨.GET, "1", .obj [("key", PyVal.str "k")], .scalar (.num 1)⟩ := by
  rfl

/-- Claim C7, amended: over frames whose data field (when present) is
a mapping, deserialization fails exactly in four cases — syntactically
invalid JSON (MalformedFrame), an absent envelope field
(MissingField), a type outside the six-member enum (UnknownType) and a
missing type-specific required data field (BadPayload) — and succeeds
otherwise, with the correction that GET requires only the field key
(not requester_ip or requester_port). -/
theorem C7_deserialize_cases (payload : List (String × JVal))
    (_hd : ∀ d, lookupKey payload "data" = Option.some d → ∃ fs, d = JVal.obj fs) :
    Protocol.deserialize_message Option.none = Except.error .malformedFrame ∧
    ((hasKey payload "type" && hasKey payload "sender_id" && hasKey payload "data" &&
        hasKey payload "timestamp") = false →
      Protocol.deserialize_message (Option.some payload) = Except.error .missingField) ∧
    ((hasKey payload "type" && hasKey payload "sender_id" && hasKey payload "data" &&
        hasKey payload "timestamp") = true →
      (Protocol.MessageType.ofWire ((lookupKey payload "type").getD (.scalar .none)) =
          Option.none →
        Protocol.deserialize_message (Option.some payload) = Except.error .unknownType) ∧
      ∀ t, Protocol.MessageType.ofWire ((lookupKey payload "type").getD (.scalar .none)) =
          Option.some t →
        (Protocol.validate_payload_content t
            ((lookupKey payload "data").getD (.scalar .none)) = false →
          Protocol.deserialize_message (Option.some payload) = Except.error .badPayload) ∧
        (Protocol.validate_payload_content t
            ((lookupKey payload "data").getD (.scalar .none)) = true →
          Protocol.deserialize_message (Option.some payload) =
            Except.ok ⟨t, Protocol.pyStr ((lookupKey payload "sender_id").getD (.scalar .none)),
                       (lookupKey payload "data").getD (.scalar .none),
                       (lookupKey payload "timestamp").getD (.scalar .none)⟩)) ∧
    (∀ d : JVal, Protocol.validate_payload_content .GET d = d.hasField "key") := by
  refine ⟨rfl, ?_, ?_, fun d => rfl⟩
  · intro hmiss
    simp [Protocol.deserialize_message, hmiss]
  · intro hall
    constructor
    · intro hun
      simp [Protocol.deserialize_message, hall, hun]
    · intro t ht
      constructor
      · intro hbad
        simp [Protocol.deserialize_message, hall, ht, hbad]
      · intro hok
        simp [Protocol.deserialize_message, hall, ht, hok]

/-- Claim C7, witness: the amended theorem applied to a PUT frame
whose data lacks the value field yields the BadPayload error. -/
theorem C7_witness :
    Protocol.deserialize_message (Option.some
      [("type", .scalar (.str "PUT")), ("sender_id", .scalar (.str "2")),
       ("data", .obj [("key", PyVal.str "k")]), ("timestamp", .scalar (.num 1))]) =
      Except.error .badPayload :=
  (((C7_deserialize_cases
      [("type", .scalar (.str "PUT")), ("sender_id", .scalar (.str "2")),
       ("data", .obj [("key", PyVal.str "k")]), ("timestamp", .scalar (.num 1))]
      (by
        intro d h
        exact ⟨[("key", PyVal.str "k")], by simpa [lookupKey] using h.symm⟩)).2.2.1
    rfl).2 .PUT rfl).1 rfl

/-- Claim C8: serialize/deserialize round-trip — for every well-formed
envelope (per-type-complete data mapping, numeric timestamp; the
sender id is a string by construction), deserializing the serialized
form returns a structurally equal Message: same type, same sender id,
same data mapping and the same timestamp. -/
theorem C8_roundtrip (m : Protocol.Message)
    (_hdata : ∃ fs, m.data = JVal.obj fs)
    (hval : Protocol.validate_payload_content m.type m.data = true)
    (_hts : ∃ q, m.timestamp = JVal.scalar (PyVal.num q)) :
    Protocol.deserialize_message
      (Option.some (Protocol.serialize_message m)) = Except.ok m := by
  have h1 : lookupKey (Protocol.serialize_message m) "type" =
      Option.some (.scalar (.str m.type.toWire)) := rfl
  have h2 : lookupKey (Protocol.serialize_message m) "sender_id" =
      Option.some (.scalar (.str m.sender_id)) := rfl
  have h3 : lookupKey (Protocol.serialize_message m) "data" = Option.some m.data := rfl
  have h4 : lookupKey (Protocol.serialize_message m) "timestamp" =
      Option.some m.timestamp := rfl
  simp only [Protocol.deserialize_message, hasKey, h1, h2, h3, h4, Option.isSome_some,
    Bool.and_self, if_true, Option.getD_some, Protocol.ofWire_toWire, hval,
    Protocol.pyStr]

/-- Claim C8, witness: the round trip evaluated on a concrete JOIN
envelope. -/
theorem C8_witness :
    Protocol.deserialize_message
      (Option.some (Protocol.serialize_message
        ⟨.JOIN, "7", .obj [("ip", PyVal.str "a"), ("port", PyVal.num 1)],
         .scalar (.num 2)⟩)) =
      Except.ok ⟨.JOIN, "7", .obj [("ip", PyVal.str "a"), ("port", PyVal.num 1)],
                 .scalar (.num 2)⟩ :=
  C8_roundtrip
    ⟨.JOIN, "7", .obj [("ip", PyVal.str "a"), ("port", PyVal.num 1)], .scalar (.num 2)⟩
    ⟨[("ip", PyVal.str "a"), ("port", PyVal.num 1)], rfl⟩ rfl ⟨2, rfl⟩

/-- Claim C9: the local store laws — get after put returns the new
value (put overwrites); put leaves other keys untouched; get on the
empty store is absent; get after delete is absent; delete is
idempotent and deleting an absent key changes nothing; and the
snapshot (get_all) is the entire mapping, which in this pure model is
a value and therefore independent of any later mutation. -/
theorem C9_localstorage (s : LocalStorage String String) (k k' : String) (v : String) :
    (LocalStorage.get (LocalStorage.put s k v) k = Option.some v) ∧
    (k' ≠ k → LocalStorage.get (LocalStorage.put s k v) k' = LocalStorage.get s k') ∧
    (LocalStorage.get ([] : LocalStorage String String) k = Option.none) ∧
    (LocalStorage.get (LocalStorage.delete s k) k = Option.none) ∧
    (LocalStorage.delete (LocalStorage.delete s k) k = LocalStorage.delete s k) ∧
    (LocalStorage.get s k = Option.none → LocalStorage.delete s k = s) ∧
    (LocalStorage.get_all s = s) :=
  ⟨get_put_same s k v, fun h => get_put_other s k k' v h,
   by simp [LocalStorage.get], get_delete_same s k, delete_idem s k,
   fun h => delete_absent s k h, rfl⟩

/-- Claim C9, witness: the theorem applied to the empty store shows
get after put returns the stored value. -/
theorem C9_witness :
    LocalStorage.get (LocalStorage.put ([] : LocalStorage String String) "a" "v") "a" =
      Option.some "v" :=
  (C9_localstorage [] "a" "b" "v").1

/-- Claim C10: inserting any sequence of pairwise distinct node ids
into an initially empty ring with add_node keeps the ring list sorted
by increasing id and the pointer structure a consistent doubly linked
cycle — every node's successor points back to it through predecessor
and conversely — and in a singleton ring the node is its own successor
and predecessor.  (Quantifying over all duplicate-free insertion
sequences covers the state after each individual insertion.) -/
theorem C10_add_node_ring (ids : List ℕ) (hnd : ids.Nodup) :
    (RingSim.buildRing ids).ring.Sorted (· < ·) ∧
    (∀ x ∈ (RingSim.buildRing ids).ring,
      (RingSim.buildRing ids).pred ((RingSim.buildRing ids).succ x) = x ∧
      (RingSim.buildRing ids).succ ((RingSim.buildRing ids).pred x) = x) ∧
    ((RingSim.buildRing ids).ring.length = 1 →
      ∀ x ∈ (RingSim.buildRing ids).ring,
        (RingSim.buildRing ids).succ x = x ∧ (RingSim.buildRing ids).pred x = x) := by
  have hinv : RingSim.ringInv (RingSim.buildRing ids) :=
    RingSim.foldl_add_node_inv ids RingSim.emptyRing RingSim.emptyRing_inv
      (by intro x _ hx; simp [RingSim.emptyRing] at hx) hnd
  obtain ⟨⟨hsort, hcons⟩, hsingle⟩ := RingSim.ringInv_consistent _ hinv
  exact ⟨hsort, hcons, hsingle⟩

/-- Claim C10, witness: the theorem applied to the insertion sequence
5, 2, 9, together with the concrete evaluation of the resulting
pointer cycle. -/
theorem C10_witness :
    ([5, 2, 9].Nodup) ∧ (RingSim.buildRing [5, 2, 9]).ring.Sorted (· < ·) ∧
      (RingSim.buildRing [5, 2, 9]).succ 9 = 2 ∧
      (RingSim.buildRing [5, 2, 9]).pred 2 = 9 := by
  have h := C10_add_node_ring [5, 2, 9] (by decide)
  exact ⟨by decide, h.1, by decide, by decide⟩
